import Mathlib

/-!
Verification of the glyphsLib parser (src/Lib/glyphsLib/parser.py) and of the
axis-reconciliation behaviour described in the design document.  Python values
are embedded shallowly: plist scalars become the inductive type PValue, machine
integers become Int (Python integers are unbounded), fallible code returns
Except.  Components whose implementation is not part of this repository
snapshot (the axis resolver and the designspace projector) are modelled from
the design document; each such definition carries a doc comment starting with
the words Modelled from the spec.
-/

namespace GlyphsLib

/-- A scalar value of the generic plist representation: a Python int, str or
float (the float payload is a rational stand-in; only its being neither an
int nor a str matters to the parser code). -/
inductive PValue where
  | int (n : Int)
  | str (s : String)
  | float (x : Rat)
deriving DecidableEq, Repr

/-- Model of the pair of Python exceptions raised by Parser, with the
offending value carried structurally (the Python messages embed the value
or its type into the text). -/
inductive FormatError where
  /-- ValueError: the text after the prefix bit-space is not an integer. -/
  | badBitSuffix (value : String)
  /-- ValueError: the string is neither a number nor in bit-space format. -/
  | badString (value : String)
  /-- ValueError: invalid literal for the int() constructor. -/
  | badIntLiteral (value : String)
  /-- TypeError: unsupported type. -/
  | unsupportedType (value : PValue)
deriving DecidableEq, Repr

/-- Numeric value of a list of decimal digits (model of Python int on a
digit-only string). -/
def digitsVal (cs : List Char) : Int :=
  Int.ofNat (cs.foldl (fun a c => 10 * a + (c.toNat - 48)) 0)

/-- Model of Python str.isdigit restricted to ASCII digits: nonempty and all
characters are digits. -/
def pyIsDigit (s : String) : Bool :=
  !s.data.isEmpty && s.data.all Char.isDigit

/-- Strip leading and trailing whitespace from a character list (model of the
whitespace stripping performed by the Python int constructor). -/
def trimChars (cs : List Char) : List Char :=
  ((cs.dropWhile Char.isWhitespace).reverse.dropWhile Char.isWhitespace).reverse

/-- Model of the Python int(str) constructor restricted to ASCII: optional
surrounding whitespace, optional sign, then a nonempty run of digits;
anything else raises ValueError, modelled as none. -/
def pyIntChars (cs : List Char) : Option Int :=
  let t := trimChars cs
  match t with
  | [] => none
  | c :: rest =>
      if c = '-' then
        if !rest.isEmpty && rest.all Char.isDigit then some (-(digitsVal rest)) else none
      else if c = '+' then
        if !rest.isEmpty && rest.all Char.isDigit then some (digitsVal rest) else none
      else if t.all Char.isDigit then some (digitsVal t)
      else none

/-- Model of the Python int(str) constructor on String. -/
def pyInt (s : String) : Option Int :=
  pyIntChars s.data

/-- The literal marker tested by Parser._convert_bits: the word bit followed
by one space. -/
def bitMarker : String := "bit "

/-- Does the string start with the bit marker (model of str.startswith)? -/
def hasBitMarker (s : String) : Bool :=
  bitMarker.data.isPrefixOf s.data

/-- Embedding of Parser._convert_bits: an int is returned unchanged; a
digit-only string is converted; a string starting with the bit marker has its
suffix converted by int(), raising ValueError when that fails; any other
string raises ValueError; any other type raises TypeError. -/
def convert_bits : PValue → Except FormatError Int
  | .int n => .ok n
  | .str s =>
      if pyIsDigit s then .ok (digitsVal s.data)
      else if hasBitMarker s then
        match pyIntChars (s.data.drop 4) with
        | some n => .ok n
        | none => .error (.badBitSuffix s)
      else .error (.badString s)
  | .float x => .error (.unsupportedType (.float x))

/-- C4: the bit-number coercion function returns n for an integer input n,
the integer value for a digit-only string, and N for a string made of the bit
marker followed by text that parses as an integer; every other input (a
bit-marked string whose suffix is not an integer, any other string, or a
non-integer non-string value such as a float) raises a format error naming
the offending value or type, and these cases cover every input, so they are
exactly the inputs on which it raises. -/
theorem convert_bits_grammar :
    (∀ n : Int, convert_bits (.int n) = .ok n) ∧
    (∀ s : String, pyIsDigit s = true →
        convert_bits (.str s) = .ok (digitsVal s.data)) ∧
    (∀ s : String, ∀ n : Int, pyIsDigit s = false → hasBitMarker s = true →
        pyIntChars (s.data.drop 4) = some n → convert_bits (.str s) = .ok n) ∧
    (∀ s : String, pyIsDigit s = false → hasBitMarker s = true →
        pyIntChars (s.data.drop 4) = none →
        convert_bits (.str s) = .error (.badBitSuffix s)) ∧
    (∀ s : String, pyIsDigit s = false → hasBitMarker s = false →
        convert_bits (.str s) = .error (.badString s)) ∧
    (∀ x : Rat, convert_bits (.float x) = .error (.unsupportedType (.float x))) := by
  refine ⟨fun n => rfl, ?_, ?_, ?_, ?_, fun x => rfl⟩
  · intro s h1
    simp [convert_bits, h1]
  · intro s n h1 h2 h3
    simp [convert_bits, h1, h2, h3]
  · intro s h1 h2 h3
    simp [convert_bits, h1, h2, h3]
  · intro s h1 h2
    simp [convert_bits, h1, h2]

/-- Witness for C4 at the concrete inputs named by the spec. -/
theorem convert_bits_grammar_witness :
    convert_bits (.str ("bit 5")) = .ok 5 ∧
    convert_bits (.str ("7")) = .ok 7 ∧
    convert_bits (.int 7) = .ok 7 ∧
    convert_bits (.str ("bit ")) = .error (.badBitSuffix ("bit ")) ∧
    convert_bits (.str ("garbage")) = .error (.badString ("garbage")) ∧
    convert_bits (.float (7 / 2)) = .error (.unsupportedType (.float (7 / 2))) :=
  ⟨convert_bits_grammar.2.2.1 ("bit 5") 5 rfl rfl rfl,
   convert_bits_grammar.2.1 ("7") rfl,
   convert_bits_grammar.1 7,
   convert_bits_grammar.2.2.2.1 ("bit ") rfl rfl rfl,
   convert_bits_grammar.2.2.2.2.1 ("garbage") rfl rfl,
   convert_bits_grammar.2.2.2.2.2 (7 / 2)⟩

/-- A custom-parameter value as the codepage-normalization code sees it:
either a scalar or a flat list of scalars.  (Deeper nesting exists in real
files but is never inspected by this code path.) -/
inductive ParamValue where
  | scalar (v : PValue)
  | list (vs : List PValue)
deriving DecidableEq, Repr

/-- One entry of the font-level customParameters sequence: a name/value
pair; names need not be unique and order is significant. -/
structure CustomParam where
  name : String
  value : ParamValue
deriving DecidableEq, Repr

/-- Model of Python str() as used for table lookup: the decimal repr for an
int, the string itself for a str; the repr of a Python float always contains
a dot, so it never coincides with the decimal repr of an int, which is all
the membership test below can observe; we model it with a stand-in marker. -/
def pyStr : PValue → String
  | .int n => toString n
  | .str s => s
  | .float x => toString x.num ++ ".x"

/-- Model of the int() constructor as applied to a supported codepage entry:
ints unchanged, strings parsed (ValueError when unparsable), floats
truncated toward zero. -/
def pyIntCoerce : PValue → Except FormatError Int
  | .int n => .ok n
  | .str s =>
      match pyInt s with
      | some n => .ok n
      | none => .error (.badIntLiteral s)
  | .float x => .ok (x.num.tdiv (x.den : Int))

/-- Is the parameter name one of the two names consumed by codepage
normalization? -/
def isCodepageName (nm : String) : Bool :=
  nm == "codePageRanges" || nm == "openTypeOS2CodePageRanges"

/-- The first codepage parameter value, if any: embeds the initial search
loop of Parser._process_codepage_ranges, which breaks at the first parameter
bearing either consumed name. -/
def findCodepages (params : List CustomParam) : Option ParamValue :=
  (params.find? (fun p => isCodepageName p.name)).map (fun p => p.value)

/-- Embeds the partitioning loop of Parser._process_codepage_ranges: each
page whose str() form occurs among the table keys is coerced by int() into
the supported bucket, every other page is coerced by _convert_bits into the
unsupported-bits bucket; the first failing coercion aborts the whole parse. -/
def partitionPages (keys : List String) : List PValue → Except FormatError (List Int × List Int)
  | [] => .ok ([], [])
  | p :: ps =>
      if keys.contains (pyStr p) then
        match pyIntCoerce p with
        | .error e => .error e
        | .ok n =>
            match partitionPages keys ps with
            | .error e => .error e
            | .ok (s, u) => .ok (n :: s, u)
      else
        match convert_bits p with
        | .error e => .error e
        | .ok n =>
            match partitionPages keys ps with
            | .error e => .error e
            | .ok (s, u) => .ok (s, n :: u)

/-- Embeds Parser._process_codepage_ranges, parameterized by the decimal
keys of the codepage-bit table (a module constant living outside this
snapshot).  The dictionary around the customParameters entry is copied
unchanged, so the transformation is given on the parameter list alone.
Iterating a scalar parameter value is modelled as a type error (the
character-wise iteration Python performs on a str is outside the model; no
claim touches it). -/
def process_codepage_ranges (keys : List String) (params : List CustomParam) :
    Except FormatError (List CustomParam) :=
  match findCodepages params with
  | none => .ok params
  | some (.scalar v) => .error (.unsupportedType v)
  | some (.list pages) =>
      match partitionPages keys pages with
      | .error e => .error e
      | .ok (supported, unsupported) =>
          let kept := params.filter (fun p => !isCodepageName p.name)
          let withSup := if supported.isEmpty then kept
            else kept ++ [⟨"codePageRanges", .list (supported.map PValue.int)⟩]
          let result := if unsupported.isEmpty then withSup
            else withSup ++
              [⟨"codePageRangesUnsupportedBits", .list (unsupported.map PValue.int)⟩]
          .ok result

/-- Run a coercion over a list of pages, stopping at the first failure. -/
def coerceAll (f : PValue → Except FormatError Int) : List PValue → Except FormatError (List Int)
  | [] => .ok []
  | p :: ps =>
      match f p with
      | .error e => .error e
      | .ok n =>
          match coerceAll f ps with
          | .error e => .error e
          | .ok ns => .ok (n :: ns)

lemma partitionPages_ok (keys : List String) :
    ∀ pages s u, partitionPages keys pages = .ok (s, u) →
      coerceAll pyIntCoerce (pages.filter (fun p => keys.contains (pyStr p))) = .ok s ∧
      coerceAll convert_bits (pages.filter (fun p => !keys.contains (pyStr p))) = .ok u := by
  intro pages
  induction pages with
  | nil =>
      intro s u h
      simp [partitionPages] at h
      simp [coerceAll, h.1, h.2]
  | cons p ps ih =>
      intro s u h
      by_cases hc : pyStr p ∈ keys
      · cases hp : pyIntCoerce p with
        | error e => simp [partitionPages, hc, hp] at h
        | ok n =>
            cases hq : partitionPages keys ps with
            | error e => simp [partitionPages, hc, hp, hq] at h
            | ok su =>
                obtain ⟨s', u'⟩ := su
                obtain ⟨hm1, hm2⟩ := ih s' u' hq
                simp at hm1 hm2
                simp [partitionPages, hc, hp, hq] at h
                simp [List.filter_cons, hc, coerceAll, hp, hm1, hm2,
                  ← h.1, ← h.2]
      · cases hp : convert_bits p with
        | error e => simp [partitionPages, hc, hp] at h
        | ok n =>
            cases hq : partitionPages keys ps with
            | error e => simp [partitionPages, hc, hp, hq] at h
            | ok su =>
                obtain ⟨s', u'⟩ := su
                obtain ⟨hm1, hm2⟩ := ih s' u' hq
                simp at hm1 hm2
                simp [partitionPages, hc, hp, hq] at h
                simp [List.filter_cons, hc, coerceAll, hp, hm1, hm2,
                  ← h.1, ← h.2]

lemma process_codepage_ranges_eq (keys : List String) (params : List CustomParam)
    (pages : List PValue) (s u : List Int)
    (hfind : findCodepages params = some (.list pages))
    (hpart : partitionPages keys pages = .ok (s, u)) :
    process_codepage_ranges keys params = .ok
      (params.filter (fun p => !isCodepageName p.name) ++
        (if s.isEmpty then [] else [⟨"codePageRanges", .list (s.map PValue.int)⟩]) ++
        (if u.isEmpty then [] else
          [⟨"codePageRangesUnsupportedBits", .list (u.map PValue.int)⟩])) := by
  unfold process_codepage_ranges
  rw [hfind]
  simp only [hpart]
  cases s <;> cases u <;> simp

lemma findCodepages_append_first (pre rest : List CustomParam) (cp : CustomParam)
    (hpre : ∀ p ∈ pre, isCodepageName p.name = false)
    (h1 : isCodepageName cp.name = true) :
    findCodepages (pre ++ cp :: rest) = some cp.value := by
  unfold findCodepages
  have hnone : pre.find? (fun p => isCodepageName p.name) = none :=
    List.find?_eq_none.mpr (by intro x hx; simp [hpre x hx])
  rw [List.find?_append, hnone]
  simp [List.find?_cons, h1]

/-- C5: when a custom parameter named codePageRanges or
openTypeOS2CodePageRanges is present, normalization partitions its values
into those whose printed form matches the fixed codepage-bit table (coerced
to integers and re-emitted under the name codePageRanges) and those that do
not (coerced by the bit-number grammar and re-emitted under
codePageRangesUnsupportedBits), while every other custom parameter, in the
relative order of the original list, is preserved unchanged. -/
theorem codepage_normalization_partitions (keys : List String)
    (params : List CustomParam) (pages : List PValue) (s u : List Int)
    (hfind : findCodepages params = some (.list pages))
    (hpart : partitionPages keys pages = .ok (s, u)) :
    process_codepage_ranges keys params = .ok
      (params.filter (fun p => !isCodepageName p.name) ++
        (if s.isEmpty then [] else [⟨"codePageRanges", .list (s.map PValue.int)⟩]) ++
        (if u.isEmpty then [] else
          [⟨"codePageRangesUnsupportedBits", .list (u.map PValue.int)⟩])) ∧
    coerceAll pyIntCoerce (pages.filter (fun p => keys.contains (pyStr p))) = .ok s ∧
    coerceAll convert_bits (pages.filter (fun p => !keys.contains (pyStr p))) = .ok u :=
  ⟨process_codepage_ranges_eq keys params pages s u hfind hpart,
   (partitionPages_ok keys pages s u hpart).1,
   (partitionPages_ok keys pages s u hpart).2⟩

/-- Witness for C5 on a concrete parameter list. -/
theorem codepage_normalization_partitions_witness :
    process_codepage_ranges ["1252"]
      [⟨"foo", .scalar (.str ("x"))⟩,
       ⟨"codePageRanges", .list [.int 1252, .str ("bit 5")]⟩,
       ⟨"bar", .scalar (.int 3)⟩] = .ok
      [⟨"foo", .scalar (.str ("x"))⟩, ⟨"bar", .scalar (.int 3)⟩,
       ⟨"codePageRanges", .list [.int 1252]⟩,
       ⟨"codePageRangesUnsupportedBits", .list [.int 5]⟩] :=
  (codepage_normalization_partitions ["1252"]
    [⟨"foo", .scalar (.str ("x"))⟩,
     ⟨"codePageRanges", .list [.int 1252, .str ("bit 5")]⟩,
     ⟨"bar", .scalar (.int 3)⟩]
    [.int 1252, .str ("bit 5")] [1252] [5] rfl rfl).1

/-- C9: when more than one parameter bearing a consumed codepage name is
present, only the first one is partitioned and every later duplicate is
removed from the output with its values silently dropped: the result is the
same as if the later duplicate had not been there at all. -/
theorem codepage_duplicates_dropped (keys : List String)
    (pre mid post : List CustomParam) (cp1 cp2 : CustomParam)
    (hpre : ∀ p ∈ pre, isCodepageName p.name = false)
    (h1 : isCodepageName cp1.name = true)
    (h2 : isCodepageName cp2.name = true) :
    process_codepage_ranges keys (pre ++ cp1 :: (mid ++ cp2 :: post)) =
      process_codepage_ranges keys (pre ++ cp1 :: (mid ++ post)) := by
  have hA := findCodepages_append_first pre (mid ++ cp2 :: post) cp1 hpre h1
  have hB := findCodepages_append_first pre (mid ++ post) cp1 hpre h1
  have hFil : (pre ++ cp1 :: (mid ++ cp2 :: post)).filter
      (fun p => !isCodepageName p.name) =
      (pre ++ cp1 :: (mid ++ post)).filter (fun p => !isCodepageName p.name) := by
    simp [List.filter_append, List.filter_cons, h1, h2]
  obtain ⟨nm, v⟩ := cp1
  cases v with
  | scalar x => simp [process_codepage_ranges, hA, hB]
  | list pages =>
      cases hq : partitionPages keys pages with
      | error e => simp [process_codepage_ranges, hA, hB, hq]
      | ok su =>
          obtain ⟨s, u⟩ := su
          simp only [process_codepage_ranges, hA, hB, hq, hFil]

/-- Witness for C9 on a concrete parameter list with a duplicate. -/
theorem codepage_duplicates_dropped_witness :
    process_codepage_ranges ["1252"]
      [⟨"foo", .scalar (.int 1)⟩, ⟨"codePageRanges", .list [.int 1252]⟩,
       ⟨"openTypeOS2CodePageRanges", .list [.int 9999]⟩] =
    process_codepage_ranges ["1252"]
      [⟨"foo", .scalar (.int 1)⟩, ⟨"codePageRanges", .list [.int 1252]⟩] :=
  codepage_duplicates_dropped ["1252"] [⟨"foo", .scalar (.int 1)⟩] [] []
    ⟨"codePageRanges", .list [.int 1252]⟩
    ⟨"openTypeOS2CodePageRanges", .list [.int 9999]⟩
    (by decide) rfl rfl

/-- Does a parameter bear the emitted unsupported-bits name? -/
def hasUnsupportedBitsName (p : CustomParam) : Bool :=
  p.name == "codePageRangesUnsupportedBits"

/-- Counterexample to C10 as stated: a parameter list that already carries a
parameter named codePageRangesUnsupportedBits (a name the normalization
emits but does not consume) next to a codepage parameter all of whose values
match the table.  No value fails to match, yet the output contains a
codePageRangesUnsupportedBits parameter, because the pre-existing one does
not bear either consumed name and survives the filter. -/
theorem codepage_emission_cex :
    process_codepage_ranges ["1252"]
      [⟨"codePageRangesUnsupportedBits", .list [.int 9]⟩,
       ⟨"codePageRanges", .list [.int 1252]⟩] = .ok
      [⟨"codePageRangesUnsupportedBits", .list [.int 9]⟩,
       ⟨"codePageRanges", .list [.int 1252]⟩] ∧
    List.contains ["1252"] (pyStr (.int 1252)) = true ∧
    List.any
      [(⟨"codePageRangesUnsupportedBits", .list [.int 9]⟩ : CustomParam),
       ⟨"codePageRanges", .list [.int 1252]⟩]
      hasUnsupportedBitsName = true :=
  ⟨rfl, rfl, rfl⟩

lemma kept_no_codepage (params : List CustomParam) :
    ∀ p ∈ params.filter (fun p => !isCodepageName p.name),
      isCodepageName p.name = false := by
  intro p hp
  have := (List.mem_filter.mp hp).2
  simpa using this

lemma mem_emitted_parts (params : List CustomParam) (s u : List Int) (p : CustomParam) :
    p ∈ (params.filter (fun q => !isCodepageName q.name) ++
      (if s.isEmpty then [] else [⟨"codePageRanges", .list (s.map PValue.int)⟩]) ++
      (if u.isEmpty then [] else
        [⟨"codePageRangesUnsupportedBits", .list (u.map PValue.int)⟩])) ↔
    (p ∈ params ∧ isCodepageName p.name = false) ∨
    (s ≠ [] ∧ p = ⟨"codePageRanges", .list (s.map PValue.int)⟩) ∨
    (u ≠ [] ∧ p = ⟨"codePageRangesUnsupportedBits", .list (u.map PValue.int)⟩) := by
  by_cases hs : s = [] <;> by_cases hu : u = [] <;>
    simp [hs, hu, List.mem_filter, List.mem_append]

/-- C10 amended: provided no parameter of the input list is itself named
codePageRangesUnsupportedBits, the output contains a codePageRanges
parameter iff at least one value of the consumed codepage parameter matched
the table, and a codePageRangesUnsupportedBits parameter iff at least one
value did not; a codepage parameter with an empty value list is removed with
nothing emitted in its place, and an emitted parameter always carries the
corresponding nonempty bucket. -/
theorem codepage_emission_amended (keys : List String) (params : List CustomParam)
    (pages : List PValue) (s u : List Int)
    (hclean : ∀ p ∈ params, ¬ p.name = "codePageRangesUnsupportedBits")
    (hfind : findCodepages params = some (.list pages))
    (hpart : partitionPages keys pages = .ok (s, u)) :
    ∃ result, process_codepage_ranges keys params = .ok result ∧
      ((∃ p ∈ result, p.name = "codePageRanges") ↔ s ≠ []) ∧
      ((∃ p ∈ result, p.name = "codePageRangesUnsupportedBits") ↔ u ≠ []) ∧
      (pages = [] → result = params.filter (fun p => !isCodepageName p.name)) ∧
      (∀ p ∈ result, p.name = "codePageRanges" →
        p.value = .list (s.map PValue.int) ∧ s ≠ []) ∧
      (∀ p ∈ result, p.name = "codePageRangesUnsupportedBits" →
        p.value = .list (u.map PValue.int) ∧ u ≠ []) := by
  refine ⟨_, process_codepage_ranges_eq keys params pages s u hfind hpart,
    ?_, ?_, ?_, ?_, ?_⟩
  · constructor
    · rintro ⟨p, hpR, hname⟩
      rcases (mem_emitted_parts params s u p).mp hpR with ⟨hin, hfalse⟩ | ⟨hs, rfl⟩ | ⟨hu, rfl⟩
      · exfalso
        rw [hname] at hfalse
        simp [isCodepageName] at hfalse
      · exact hs
      · exfalso
        simp at hname
    · intro hs
      exact ⟨_, (mem_emitted_parts params s u _).mpr (Or.inr (Or.inl ⟨hs, rfl⟩)), rfl⟩
  · constructor
    · rintro ⟨p, hpR, hname⟩
      rcases (mem_emitted_parts params s u p).mp hpR with ⟨hin, hfalse⟩ | ⟨hs, rfl⟩ | ⟨hu, rfl⟩
      · exact absurd hname (hclean p hin)
      · exfalso
        simp at hname
      · exact hu
    · intro hu
      exact ⟨_, (mem_emitted_parts params s u _).mpr (Or.inr (Or.inr ⟨hu, rfl⟩)), rfl⟩
  · intro hpages
    subst hpages
    simp [partitionPages] at hpart
    obtain ⟨h1, h2⟩ := hpart
    subst h1
    subst h2
    simp
  · intro p hpR hname
    rcases (mem_emitted_parts params s u p).mp hpR with ⟨hin, hfalse⟩ | ⟨hs, rfl⟩ | ⟨hu, rfl⟩
    · exfalso
      rw [hname] at hfalse
      simp [isCodepageName] at hfalse
    · exact ⟨rfl, hs⟩
    · exfalso
      simp at hname
  · intro p hpR hname
    rcases (mem_emitted_parts params s u p).mp hpR with ⟨hin, hfalse⟩ | ⟨hs, rfl⟩ | ⟨hu, rfl⟩
    · exact absurd hname (hclean p hin)
    · exfalso
      simp at hname
    · exact ⟨rfl, hu⟩

/-- Witness for the amended C10 at a concrete parameter list. -/
theorem codepage_emission_amended_witness :
    ∃ result, process_codepage_ranges ["1252"]
        [⟨"foo", .scalar (.int 1)⟩,
         ⟨"codePageRanges", .list [.int 1252, .str ("bit 5")]⟩] = .ok result ∧
      ((∃ p ∈ result, p.name = "codePageRanges") ↔ ([1252] : List Int) ≠ []) ∧
      ((∃ p ∈ result, p.name = "codePageRangesUnsupportedBits") ↔
        ([5] : List Int) ≠ []) ∧
      (([.int 1252, .str ("bit 5")] : List PValue) = [] →
        result = List.filter (fun p => !isCodepageName p.name)
          [⟨"foo", .scalar (.int 1)⟩,
           ⟨"codePageRanges", .list [.int 1252, .str ("bit 5")]⟩]) ∧
      (∀ p ∈ result, p.name = "codePageRanges" →
        p.value = .list (([1252] : List Int).map PValue.int) ∧
        ([1252] : List Int) ≠ []) ∧
      (∀ p ∈ result, p.name = "codePageRangesUnsupportedBits" →
        p.value = .list (([5] : List Int).map PValue.int) ∧
        ([5] : List Int) ≠ []) :=
  codepage_emission_amended ["1252"]
    [⟨"foo", .scalar (.int 1)⟩, ⟨"codePageRanges", .list [.int 1252, .str ("bit 5")]⟩]
    [.int 1252, .str ("bit 5")] [1252] [5] (by decide) rfl rfl

/-- A generic nested plist value as produced by the external grammar
decoder: scalars, ordered sequences and ordered string-keyed mappings. -/
inductive GVal where
  | scalar (p : PValue)
  | arr (xs : List GVal)
  | obj (fields : List (String × GVal))

mutual

/-- Embedding of Parser._parse in generic mode (the current type a plain
dict, so no per-key override hooks fire): scalars pass through, lists map
recursively, dicts are rebuilt key by key. -/
def parseG : GVal → GVal
  | .scalar p => .scalar p
  | .arr xs => .arr (parseGList xs)
  | .obj fields => .obj (parseGObj fields)

/-- Embedding of Parser._parse_list in generic mode. -/
def parseGList : List GVal → List GVal
  | [] => []
  | x :: xs => parseG x :: parseGList xs

/-- Embedding of the per-key loop of Parser._parse_dict in generic mode. -/
def parseGObj : List (String × GVal) → List (String × GVal)
  | [] => []
  | (k, v) :: xs => (k, parseG v) :: parseGObj xs

end

/-- The error raised by the external openstep plist decoder; its content is
not inspected by the parser code. -/
structure DecoderError where
  msg : String
deriving DecidableEq, Repr

/-- The exception escaping Parser.parse on malformed input: the ValueError
that wraps the decoder error (MalformedSourceError in the design
document). -/
inductive SourceError where
  | malformedSource (e : DecoderError)
deriving DecidableEq, Repr

/-- Embedding of Parser._fl7_format_clean: strip any trailing semicolons
and newlines (Python rstrip with that character set). -/
def fl7_format_clean (s : String) : String :=
  ⟨(s.data.reverse.dropWhile (fun c => c == ';' || c == '\n')).reverse⟩

/-- Embedding of Parser.parse on string input, parameterized by the
external grammar decoder: clean the FontLab artifact, decode, then parse the
resulting generic value; a decoder error is caught and re-raised as the
wrapping ValueError, and nothing else is caught. -/
def parserParse (decode : String → Except DecoderError GVal) (input : String) :
    Except SourceError GVal :=
  match decode (fl7_format_clean input) with
  | .error e => .error (.malformedSource e)
  | .ok v => .ok (parseG v)

/-- C7: for every input the underlying grammar decoder cannot tokenize,
Parser.parse raises the MalformedSourceError wrapping the decoder error;
and whenever parse returns a value at all, that value is the full parse of
a successfully decoded document — malformed input is always fatal and never
yields a partially populated result. -/
theorem parse_malformed_is_fatal (decode : String → Except DecoderError GVal)
    (input : String) :
    (∀ e, decode (fl7_format_clean input) = .error e →
      parserParse decode input = .error (.malformedSource e)) ∧
    (∀ v, parserParse decode input = .ok v →
      ∃ g, decode (fl7_format_clean input) = .ok g ∧ v = parseG g) := by
  constructor
  · intro e he
    simp [parserParse, he]
  · intro v hv
    cases hd : decode (fl7_format_clean input) with
    | error e => simp [parserParse, hd] at hv
    | ok g =>
        refine ⟨g, rfl, ?_⟩
        simp [parserParse, hd] at hv
        exact hv.symm

/-- A decoder that fails on every input, for the witness below. -/
def decodeAlwaysFails : String → Except DecoderError GVal :=
  fun _ => .error ⟨"unexpected token"⟩

/-- Witness for C7 with a concrete failing decoder. -/
theorem parse_malformed_is_fatal_witness :
    parserParse decodeAlwaysFails ("abc;") =
      .error (.malformedSource ⟨"unexpected token"⟩) :=
  (parse_malformed_is_fatal decodeAlwaysFails ("abc;")).1 ⟨"unexpected token"⟩ rfl

/-- A dict-like target for the recursive walk of the ObjectBuilder: a dict
subclass whose item assignment may raise TypeError or KeyError depending on
the key and the assigned value, the way a strongly typed slot does when
nested-dict storage into it is structurally impossible. -/
structure DictTarget where
  rejects : String → GVal → Bool
  entries : List (String × GVal)

/-- Item assignment with Python dict update semantics: replace in place
under an existing key, append a fresh key at the end. -/
def dictSet (e : List (String × GVal)) (k : String) (v : GVal) :
    List (String × GVal) :=
  if e.any (fun q => q.1 == k) then
    e.map (fun q => if q.1 == k then (k, v) else q)
  else e ++ [(k, v)]

/-- The walk continued on the plain dict the local name is rebound to by
the except branch: a plain dict rejects nothing, so every remaining key is
assigned into it. -/
def parseOrphan (acc : List (String × GVal)) :
    List (String × GVal) → List (String × GVal)
  | [] => acc
  | (k, v) :: rest => parseOrphan (dictSet acc k (parseG v)) rest

/-- Embedding of Parser._parse_dict_into_object on a dict-like target with
no override hooks.  The Python function mutates the object bound to the
local name res and returns None, so the caller keeps the object it passed
in; the except branch rebinds the local name to a fresh plain dict.  The
embedding returns the caller-visible object together with that detached
plain dict when a rejection occurred: from the rejection on, every key goes
into the detached dict, never into the caller-visible object. -/
def parse_dict_into_object (res : DictTarget) :
    List (String × GVal) → DictTarget × Option (List (String × GVal))
  | [] => (res, none)
  | (k, v) :: rest =>
      let result := parseG v
      if res.rejects k result then
        (res, some (parseOrphan [(k, result)] rest))
      else
        parse_dict_into_object { res with entries := dictSet res.entries k result } rest

/-- All of a list of fields assigned in order into an entry list. -/
def assignList (e : List (String × GVal)) (l : List (String × GVal)) :
    List (String × GVal) :=
  l.foldl (fun acc p => dictSet acc p.1 (parseG p.2)) e

/-- A rejection predicate refusing assignment under the key cp. -/
def rejectsCp : String → GVal → Bool :=
  fun k _ => k == "cp"

/-- Counterexample to C2 as stated: a target that rejects the key cp.  The
walk completes without error, but the caller-visible object (the one the
enclosing _parse_dict returns) holds only the field assigned before the
failure; the parsed value of cp — and the value of every later key — sits
in the detached plain dict the local name was rebound to, which the caller
never sees, so the value is lost from the returned object. -/
theorem parse_degrade_cex :
    (parse_dict_into_object ⟨rejectsCp, []⟩
      [("a", GVal.scalar (.int 1)), ("cp", GVal.scalar (.int 2)),
       ("b", GVal.scalar (.int 3))]).1.entries = [("a", GVal.scalar (.int 1))] ∧
    (parse_dict_into_object ⟨rejectsCp, []⟩
      [("a", GVal.scalar (.int 1)), ("cp", GVal.scalar (.int 2)),
       ("b", GVal.scalar (.int 3))]).2 =
      some [("cp", GVal.scalar (.int 2)), ("b", GVal.scalar (.int 3))] :=
  ⟨rfl, rfl⟩

/-- C2 amended: when assignment of a parsed value under a key is rejected by
the target, the walk of the whole document still completes and no error is
reported; a fresh generic map receives that key's parsed value and then the
parsed values of all subsequent keys; but that map replaces the target only
under a local name and is discarded, so the rejected value and all later
values are absent from the caller-visible object, which retains exactly the
fields assigned before the failure. -/
theorem parse_degrade_amended (res : DictTarget) (pre rest : List (String × GVal))
    (k : String) (v : GVal)
    (hpre : ∀ p ∈ pre, res.rejects p.1 (parseG p.2) = false)
    (hrej : res.rejects k (parseG v) = true) :
    parse_dict_into_object res (pre ++ (k, v) :: rest) =
      ({ res with entries := assignList res.entries pre },
       some (parseOrphan [(k, parseG v)] rest)) := by
  induction pre generalizing res with
  | nil => simp [parse_dict_into_object, hrej, assignList]
  | cons p ps ih =>
      obtain ⟨k0, v0⟩ := p
      have hacc : res.rejects k0 (parseG v0) = false :=
        hpre (k0, v0) (List.mem_cons_self _ _)
      have hpre2 : ∀ q ∈ ps,
          ({ res with entries := dictSet res.entries k0 (parseG v0) } :
            DictTarget).rejects q.1 (parseG q.2) = false :=
        fun q hq => hpre q (List.mem_cons_of_mem _ hq)
      simp only [List.cons_append, parse_dict_into_object, hacc, Bool.false_eq_true,
        if_false]
      exact ih _ hpre2 hrej

/-- Witness for the amended C2 at a concrete target and document. -/
theorem parse_degrade_amended_witness :
    parse_dict_into_object ⟨rejectsCp, []⟩
      [("x", GVal.scalar (.int 7)), ("cp", GVal.scalar (.int 2)),
       ("y", GVal.scalar (.int 3))] =
      ({ rejects := rejectsCp,
         entries := [("x", GVal.scalar (.int 7))] },
       some [("cp", GVal.scalar (.int 2)), ("y", GVal.scalar (.int 3))]) :=
  parse_degrade_amended ⟨rejectsCp, []⟩
    [("x", GVal.scalar (.int 7))] [("y", GVal.scalar (.int 3))]
    "cp" (GVal.scalar (.int 2)) (by decide) rfl

/-- One glyph file payload as assembled by load_glyphspackage: at least a
glyphname key, plus the rest of the parsed content, carried through
untouched. -/
structure GlyphData where
  glyphname : String
  content : List (String × GVal)

/-- Embedding of the sort_key closure of load_glyphspackage: a glyph whose
name occurs in the order list keys on the pair (0, first index), any other
glyph on (1, name); the Sum type with its left-before-right comparison
mirrors the Python tuple comparison. -/
def sort_key (glyphorder : List String) (g : GlyphData) : Nat ⊕ String :=
  match glyphorder.findIdx? (fun n => n == g.glyphname) with
  | some i => .inl i
  | none => .inr g.glyphname

/-- Comparison of sort keys: left keys by index, right keys by string
order, and every left key before every right key. -/
def keyLe (a b : Nat ⊕ String) : Bool :=
  match a, b with
  | .inl i, .inl j => decide (i ≤ j)
  | .inl _, .inr _ => true
  | .inr _, .inl _ => false
  | .inr x, .inr y => decide (x ≤ y)

lemma keyLe_total (a b : Nat ⊕ String) : keyLe a b = true ∨ keyLe b a = true := by
  cases a <;> cases b <;> simp [keyLe] <;> exact le_total _ _

lemma keyLe_trans {a b c : Nat ⊕ String} :
    keyLe a b = true → keyLe b c = true → keyLe a c = true := by
  cases a <;> cases b <;> cases c <;> simp [keyLe] <;>
    ( intro h1 h2
      exact le_trans h1 h2 )

/-- The ordering load_glyphspackage sorts by. -/
def glyphRel (glyphorder : List String) (g h : GlyphData) : Prop :=
  keyLe (sort_key glyphorder g) (sort_key glyphorder h) = true

instance glyphRelDecidable (glyphorder : List String) :
    DecidableRel (glyphRel glyphorder) :=
  fun _ _ => instDecidableEqBool _ _

instance glyphRelTotal (glyphorder : List String) :
    IsTotal GlyphData (glyphRel glyphorder) :=
  ⟨fun _ _ => keyLe_total _ _⟩

instance glyphRelTrans (glyphorder : List String) :
    IsTrans GlyphData (glyphRel glyphorder) :=
  ⟨fun _ _ _ => keyLe_trans⟩

/-- Embedding of the sorting step of load_glyphspackage: the parsed glyph
payloads sorted by sort_key (Python sorted is a stable sort; keys are
injective on distinct names, so any sort by the same key agrees). -/
def load_glyphspackage_sort (glyphorder : List String) (glyphs : List GlyphData) :
    List GlyphData :=
  List.insertionSort (glyphRel glyphorder) glyphs

lemma glyphRel_iff (glyphorder : List String) (g h : GlyphData) :
    glyphRel glyphorder g h ↔
      (match glyphorder.findIdx? (fun n => n == g.glyphname),
             glyphorder.findIdx? (fun n => n == h.glyphname) with
       | some i, some j => i ≤ j
       | some _, none => True
       | none, some _ => False
       | none, none => g.glyphname ≤ h.glyphname) := by
  unfold glyphRel sort_key
  cases glyphorder.findIdx? (fun n => n == g.glyphname) <;>
    cases glyphorder.findIdx? (fun n => n == h.glyphname) <;>
    simp [keyLe]

/-- C8: the assembled glyphs list is a permutation of the parsed glyph
payloads in which every glyph named in the order list sorts by its index
there, every glyph absent from the order list sorts after all ordered
glyphs, and glyphs absent from the order list appear in ascending
alphabetical order of glyph name. -/
theorem glyphs_package_order (glyphorder : List String) (glyphs : List GlyphData) :
    (load_glyphspackage_sort glyphorder glyphs).Perm glyphs ∧
    (load_glyphspackage_sort glyphorder glyphs).Sorted (fun g h =>
      match glyphorder.findIdx? (fun n => n == g.glyphname),
            glyphorder.findIdx? (fun n => n == h.glyphname) with
      | some i, some j => i ≤ j
      | some _, none => True
      | none, some _ => False
      | none, none => g.glyphname ≤ h.glyphname) := by
  constructor
  · exact List.perm_insertionSort _ _
  · have hs := List.sorted_insertionSort (glyphRel glyphorder) glyphs
    exact hs.imp (fun {a b} hab => (glyphRel_iff glyphorder a b).mp hab)

/-- Modelled from the spec: one Axis Location entry, a user-space coordinate
for a named axis (the axis resolver of builder/axes.py is not part of this
snapshot; this model follows sections 4.4 and 8 of the design document). -/
structure AxisLoc where
  axis : String
  location : Rat
deriving DecidableEq, Repr

/-- Modelled from the spec: a master, with one design-space coordinate per
declared axis and an optional Axis Location custom parameter. -/
structure GSMaster where
  coords : List Rat
  axisLocation : Option (List AxisLoc)
deriving DecidableEq, Repr

/-- Modelled from the spec: an instance, mirroring the master fields the
axis resolver reads. -/
structure GSInstance where
  coords : List Rat
  axisLocation : Option (List AxisLoc)
deriving DecidableEq, Repr

/-- Modelled from the spec: the slice of the font the axis resolver
consumes — declared axes as (tag, name) pairs, masters, instances, the
Virtual Master entries, the optional Axis Mappings parameter keyed by axis
tag, and the index of the regular (origin) master, whose selection is taken
as given. -/
structure GSFontAxes where
  axes : List (String × String)
  masters : List GSMaster
  instances : List GSInstance
  virtualMasters : List (List AxisLoc)
  axisMappings : List (String × List (Rat × Rat))
  regular : Nat
deriving DecidableEq, Repr

/-- The Location recorded for the axis named nm in an Axis Location
parameter, when the parameter is present and carries an entry for it. -/
def lookupLoc (al : Option (List AxisLoc)) (nm : String) : Option Rat :=
  match al with
  | none => none
  | some l => (l.find? (fun e => e.axis == nm)).map (fun e => e.location)

/-- Modelled from the spec: the (userValue, designValue) pairs contributed
by the non-virtual masters that carry an Axis Location entry naming this
axis, pairing the user-space Location with the design coordinate. -/
def masterPairs (f : GSFontAxes) (i : Nat) (nm : String) : List (Rat × Rat) :=
  f.masters.filterMap
    (fun m => (lookupLoc m.axisLocation nm).map (fun u => (u, m.coords.getD i 0)))

/-- Modelled from the spec: the (userValue, designValue) pairs contributed
by the instances that carry an Axis Location entry naming this axis. -/
def instancePairs (f : GSFontAxes) (i : Nat) (nm : String) : List (Rat × Rat) :=
  f.instances.filterMap
    (fun m => (lookupLoc m.axisLocation nm).map (fun u => (u, m.coords.getD i 0)))

/-- Deduplication pass over mapping pairs: skip a pair whose user value was
already seen, otherwise keep it and remember its user value. -/
def dedupByUserAux (seen : List Rat) : List (Rat × Rat) → List (Rat × Rat)
  | [] => []
  | p :: ps =>
      if p.1 ∈ seen then dedupByUserAux seen ps
      else p :: dedupByUserAux (p.1 :: seen) ps

/-- Deduplicate by userValue, keeping the first pair for each user value. -/
def dedupByUser (l : List (Rat × Rat)) : List (Rat × Rat) :=
  dedupByUserAux [] l

/-- Ordering of mapping pairs by user value. -/
def userLe (p q : Rat × Rat) : Prop := p.1 ≤ q.1

instance userLeDecidable : DecidableRel userLe :=
  fun p q => inferInstanceAs (Decidable (p.1 ≤ q.1))

/-- Sort mapping pairs ascending by user value. -/
def sortByUser (l : List (Rat × Rat)) : List (Rat × Rat) :=
  List.insertionSort userLe l

/-- Modelled from the spec: per-axis mapping construction in priority
order — an explicit Axis Mappings entry for the axis tag is used, converted
to an ordered sequence of pairs sorted by user value (the elision of a
trivial explicit mapping happens on projection and is modelled with the
projector below); otherwise the Axis Location pairs of masters and
instances are combined, masters first so that at a user value supplied by
both the masters' pair is authoritative, deduplicated by user value and
sorted ascending; with no source at all the mapping is empty.  Virtual
masters contribute nothing here. -/
def axisMapping (f : GSFontAxes) (tag : String) (i : Nat) (nm : String) :
    List (Rat × Rat) :=
  match (f.axisMappings.find? (fun e => e.1 == tag)).map (fun e => e.2) with
  | some m => sortByUser m
  | none => sortByUser (dedupByUser (masterPairs f i nm ++ instancePairs f i nm))

/-- Virtual-master coordinates recorded for the axis named nm. -/
def virtualCoords (f : GSFontAxes) (nm : String) : List Rat :=
  f.virtualMasters.filterMap
    (fun vm => (vm.find? (fun e => e.axis == nm)).map (fun e => e.location))

/-- Design-space coordinates of the non-virtual masters on axis i. -/
def masterCoords (f : GSFontAxes) (i : Nat) : List Rat :=
  f.masters.map (fun m => m.coords.getD i 0)

/-- Least element of a nonempty coordinate list (0 when empty). -/
def listMin : List Rat → Rat
  | [] => 0
  | x :: xs => xs.foldl min x

/-- Greatest element of a nonempty coordinate list (0 when empty). -/
def listMax : List Rat → Rat
  | [] => 0
  | x :: xs => xs.foldl max x

/-- Modelled from the spec: the axis minimum, computed over the union of
the axis's user-space coordinates — the mapping's user values when a
mapping exists, the masters' design coordinates when none does — and the
virtual-master coordinates, which widen the range. -/
def axisMinimum (f : GSFontAxes) (tag : String) (i : Nat) (nm : String) : Rat :=
  let mapping := axisMapping f tag i nm
  let base := if mapping.isEmpty then masterCoords f i
    else mapping.map (fun p => p.1)
  listMin (base ++ virtualCoords f nm)

/-- Modelled from the spec: the axis maximum, dually to the minimum. -/
def axisMaximum (f : GSFontAxes) (tag : String) (i : Nat) (nm : String) : Rat :=
  let mapping := axisMapping f tag i nm
  let base := if mapping.isEmpty then masterCoords f i
    else mapping.map (fun p => p.1)
  listMax (base ++ virtualCoords f nm)

/-- Modelled from the spec: the axis default is the user-space coordinate
of the regular (origin) master — its Axis Location entry for the axis when
present, else its design coordinate. -/
def axisDefault (f : GSFontAxes) (i : Nat) (nm : String) : Rat :=
  let m := f.masters.getD f.regular ⟨[], none⟩
  (lookupLoc m.axisLocation nm).getD (m.coords.getD i 0)

/-- The IntermediateLayer scenario of the test suite: axes Cap Height and
Weight, all real masters at Cap Height 700 and spread over Weight 400 to
900, no Axis Location and no Axis Mappings anywhere, and two virtual
masters at Cap Height 600 and 800 (Weight 400). -/
def fontC6 : GSFontAxes :=
  { axes := [("CPHT", "Cap Height"), ("wght", "Weight")],
    masters := [⟨[700, 400], none⟩, ⟨[700, 700], none⟩, ⟨[700, 900], none⟩],
    instances := [],
    virtualMasters :=
      [[⟨"Cap Height", 600⟩, ⟨"Weight", 400⟩],
       [⟨"Cap Height", 800⟩, ⟨"Weight", 400⟩]],
    axisMappings := [],
    regular := 0 }

/-- C6: coordinates occurring only in Virtual Master entries extend the
computed minimum and maximum of the affected axis but never contribute a
pair to the mapping, which is built strictly from the non-virtual masters
and instances Axis Location data — the mapping is invariant under any
change of the Virtual Master entries; and on the IntermediateLayer scenario
(virtual masters at Cap Height 600 and 800, all real masters at Cap Height
700) the Cap Height axis resolves to minimum 600, default 700, maximum 800
with an empty mapping. -/
theorem virtual_masters_extend_min_max :
    (∀ (f : GSFontAxes) (vms vms2 : List (List AxisLoc)) (tag : String)
      (i : Nat) (nm : String),
      axisMapping { f with virtualMasters := vms } tag i nm =
        axisMapping { f with virtualMasters := vms2 } tag i nm) ∧
    axisMinimum fontC6 ("CPHT") 0 ("Cap Height") = 600 ∧
    axisDefault fontC6 0 ("Cap Height") = 700 ∧
    axisMaximum fontC6 ("CPHT") 0 ("Cap Height") = 800 ∧
    axisMapping fontC6 ("CPHT") 0 ("Cap Height") = [] :=
  ⟨fun _ _ _ _ _ _ => rfl, by decide, by decide, by decide, by decide⟩

lemma mem_dedupByUserAux :
    ∀ (l : List (Rat × Rat)) (seen : List Rat) (u d : Rat),
      (u, d) ∈ dedupByUserAux seen l ↔
        (u ∉ seen ∧ l.find? (fun q => q.1 == u) = some (u, d)) := by
  intro l
  induction l with
  | nil =>
      intro seen u d
      simp [dedupByUserAux]
  | cons p ps ih =>
      intro seen u d
      obtain ⟨a, b⟩ := p
      by_cases hpu : a = u
      · subst hpu
        have hfind : List.find? (fun q => q.1 == a) ((a, b) :: ps) = some (a, b) :=
          List.find?_cons_of_pos _ (by simp)
        by_cases hs : a ∈ seen
        · simp [dedupByUserAux, hs, ih, hfind]
        · simp [dedupByUserAux, hs, ih, hfind, eq_comm]
      · have hfind : List.find? (fun q => q.1 == u) ((a, b) :: ps) =
            List.find? (fun q => q.1 == u) ps :=
          List.find?_cons_of_neg _ (by simp [hpu])
        by_cases hs : a ∈ seen
        · simp [dedupByUserAux, hs, ih, hfind]
        · simp [dedupByUserAux, hs, ih, hfind, hpu, Ne.symm hpu]

lemma mem_dedupByUser (l : List (Rat × Rat)) (u d : Rat) :
    (u, d) ∈ dedupByUser l ↔ l.find? (fun q => q.1 == u) = some (u, d) := by
  unfold dedupByUser
  rw [mem_dedupByUserAux]
  simp

lemma mem_sortByUser (l : List (Rat × Rat)) (p : Rat × Rat) :
    p ∈ sortByUser l ↔ p ∈ l :=
  (List.perm_insertionSort userLe l).mem_iff

lemma masterPairs_eq_nil {f : GSFontAxes} {i : Nat} {nm : String}
    (h : ∀ m ∈ f.masters, lookupLoc m.axisLocation nm = none) :
    masterPairs f i nm = [] := by
  unfold masterPairs
  exact List.filterMap_eq_nil_iff.mpr (fun m hm => by simp [h m hm])

/-- The font of the instances-with-Axis-Location test: masters and
instances all carry Axis Location entries for the Weight axis, the
instances adding user values 300 and 600 that the masters do not supply. -/
def fontC1 : GSFontAxes :=
  { axes := [("wght", "Weight")],
    masters := [⟨[72], some [⟨"Weight", 400⟩]⟩, ⟨[112], some [⟨"Weight", 700⟩]⟩,
                ⟨[48], some [⟨"Weight", 200⟩]⟩],
    instances := [⟨[62], some [⟨"Weight", 300⟩]⟩, ⟨[92], some [⟨"Weight", 600⟩]⟩],
    virtualMasters := [],
    axisMappings := [],
    regular := 0 }

/-- Counterexample to C1 as stated: every master of this font carries an
Axis Location entry for the Weight axis, yet the instance-level entries are
not ignored — the computed mapping contains the instance-only pairs
(300, 62) and (600, 92), and removing the instances changes it. -/
theorem axis_location_instance_cex :
    axisMapping fontC1 ("wght") 0 ("Weight") =
      [(200, 48), (300, 62), (400, 72), (600, 92), (700, 112)] ∧
    axisMapping { fontC1 with instances := [] } ("wght") 0 ("Weight") =
      [(200, 48), (400, 72), (700, 112)] ∧
    ¬ axisMapping fontC1 ("wght") 0 ("Weight") =
        axisMapping { fontC1 with instances := [] } ("wght") 0 ("Weight") :=
  ⟨by decide, by decide, by decide⟩

/-- C1 amended: with no explicit Axis Mappings entry for the axis, the
mapping merges master-level and instance-level Axis Location entries
rather than ignoring the latter: when no master carries an entry for the
axis, the instance entries alone populate the mapping; at any user value
supplied by a master, the mapping carries the masters pair and no instance
entry can override it (the masters are authoritative at conflicting user
values); and an instance entry at a user value no master supplies is merged
into the mapping. -/
theorem axis_location_precedence (f : GSFontAxes) (tag : String) (i : Nat)
    (nm : String)
    (hnoam : f.axisMappings.find? (fun e => e.1 == tag) = none) :
    ((∀ m ∈ f.masters, lookupLoc m.axisLocation nm = none) →
      axisMapping f tag i nm = sortByUser (dedupByUser (instancePairs f i nm))) ∧
    (∀ u d, (masterPairs f i nm).find? (fun q => q.1 == u) = some (u, d) →
      (u, d) ∈ axisMapping f tag i nm ∧
      ∀ d2, (u, d2) ∈ axisMapping f tag i nm → d2 = d) ∧
    (∀ u d, (∀ p ∈ masterPairs f i nm, ¬ p.1 = u) →
      (instancePairs f i nm).find? (fun q => q.1 == u) = some (u, d) →
      (u, d) ∈ axisMapping f tag i nm) := by
  have hmap : axisMapping f tag i nm =
      sortByUser (dedupByUser (masterPairs f i nm ++ instancePairs f i nm)) := by
    unfold axisMapping
    rw [hnoam]
    rfl
  refine ⟨?_, ?_, ?_⟩
  · intro hnone
    rw [hmap, masterPairs_eq_nil hnone]
    rfl
  · intro u d hfindm
    have hfind : (masterPairs f i nm ++ instancePairs f i nm).find?
        (fun q => q.1 == u) = some (u, d) := by
      rw [List.find?_append, hfindm]
      rfl
    constructor
    · rw [hmap, mem_sortByUser, mem_dedupByUser]
      exact hfind
    · intro d2 hd2
      rw [hmap, mem_sortByUser, mem_dedupByUser] at hd2
      rw [hfind] at hd2
      exact ((Prod.ext_iff.mp (Option.some.inj hd2)).2).symm
  · intro u d hnone hfindi
    have hfindm : (masterPairs f i nm).find? (fun q => q.1 == u) = none :=
      List.find?_eq_none.mpr (fun x hx => by simp [hnone x hx])
    have hfind : (masterPairs f i nm ++ instancePairs f i nm).find?
        (fun q => q.1 == u) = some (u, d) := by
      rw [List.find?_append, hfindm, hfindi]
      rfl
    rw [hmap, mem_sortByUser, mem_dedupByUser]
    exact hfind

/-- The masters-without-Axis-Location test font: no master carries
an Axis Location parameter, one instance locates Weight 400 at design 72. -/
def fontC1b : GSFontAxes :=
  { axes := [("wght", "Weight")],
    masters := [⟨[72], none⟩, ⟨[112], none⟩, ⟨[48], none⟩],
    instances := [⟨[72], some [⟨"Weight", 400⟩]⟩],
    virtualMasters := [],
    axisMappings := [],
    regular := 0 }

/-- Witness for the amended C1: on the masters-without-Axis-Location font
the instance entries alone populate the Weight mapping. -/
theorem axis_location_precedence_witness :
    axisMapping fontC1b ("wght") 0 ("Weight") =
      sortByUser (dedupByUser (instancePairs fontC1b 0 ("Weight"))) ∧
    axisMapping fontC1b ("wght") 0 ("Weight") = [(400, 72)] :=
  ⟨(axis_location_precedence fontC1b ("wght") 0 ("Weight") rfl).1 (by decide), by decide⟩

/-- Modelled from the spec: a canonical axis as the resolver produces it —
tag, display name, user-space minimum, default and maximum, and the ordered
user-to-design mapping (empty meaning identity). -/
structure CanonicalAxis where
  tag : String
  name : String
  minimum : Rat
  default : Rat
  maximum : Rat
  map : List (Rat × Rat)
deriving DecidableEq, Repr

/-- Modelled from the spec: the axis descriptor of the designspace
document, carrying the fields this core touches. -/
structure DSAxisDescriptor where
  tag : String
  name : String
  minimum : Rat
  default : Rat
  maximum : Rat
  map : List (Rat × Rat)
deriving DecidableEq, Repr

/-- Modelled from the spec: the forward projection writes one axis
descriptor per canonical axis, carrying tag, name, minimum, default,
maximum and map verbatim. -/
def projectAxis (a : CanonicalAxis) : DSAxisDescriptor :=
  ⟨a.tag, a.name, a.minimum, a.default, a.maximum, a.map⟩

/-- Forward projection of the whole ordered axis list. -/
def projectAxes (axes : List CanonicalAxis) : List DSAxisDescriptor :=
  axes.map projectAxis

/-- The two-point identity mapping spanning a user-space range (one point
when the range is a single value, duplicate identical pairs collapsing). -/
def identityMapOf (mn mx : Rat) : List (Rat × Rat) :=
  if mn = mx then [(mn, mn)] else [(mn, mn), (mx, mx)]

/-- Modelled from the spec: the inverse transform followed by resolution,
per axis.  The inverse stores the descriptor map as the Axis Mappings entry
of the axis, synthesizing the two-point identity mapping when the
descriptor carries none, purely to preserve minimum and maximum across the
round trip; resolution then sorts the entry by user value, reads minimum
and maximum off the ends of the sorted sequence, keeps the origin master
default, and elides the mapping when it is the trivial identity already
implied by minimum and maximum with no intermediate points. -/
def resolveAxisBack (d : DSAxisDescriptor) : CanonicalAxis :=
  let am := if d.map.isEmpty then identityMapOf d.minimum d.maximum else d.map
  let s := sortByUser am
  let mn := (s.head?.map (fun p => p.1)).getD d.minimum
  let mx := ((s.getLast?).map (fun p => p.1)).getD d.maximum
  { tag := d.tag, name := d.name, minimum := mn, default := d.default,
    maximum := mx, map := if s = identityMapOf mn mx then [] else s }

/-- Inverse transform and resolution of the whole descriptor list. -/
def resolveAxesBack (ds : List DSAxisDescriptor) : List CanonicalAxis :=
  ds.map resolveAxisBack

/-- Modelled from the spec: validity of a canonical axis — minimum, default
and maximum in order; mapping user values strictly increasing; and, when a
mapping is present, it spans exactly the minimum-to-maximum range and is
not the trivial identity, which a resolved axis never carries because the
resolver elides it. -/
def ValidAxis (a : CanonicalAxis) : Prop :=
  a.minimum ≤ a.default ∧ a.default ≤ a.maximum ∧
  List.Chain' (fun p q => p < q) (a.map.map (fun p => p.1)) ∧
  (a.map ≠ [] →
    (a.map.head?.map (fun p => p.1)) = some a.minimum ∧
    ((a.map.getLast?).map (fun p => p.1)) = some a.maximum ∧
    a.map ≠ identityMapOf a.minimum a.maximum)

/-- Computable check that a coordinate list is strictly increasing. -/
def chainLtB : List Rat → Bool
  | [] => true
  | [_] => true
  | x :: y :: rest => decide (x < y) && chainLtB (y :: rest)

lemma chainLtB_iff : ∀ l : List Rat,
    chainLtB l = true ↔ List.Chain' (fun x y : Rat => x < y) l := by
  intro l
  induction l with
  | nil => simp [chainLtB]
  | cons x xs ih =>
      cases xs with
      | nil => simp [chainLtB]
      | cons y rest =>
          rw [List.chain'_cons]
          rw [← ih]
          simp [chainLtB]

instance validAxisDecidable (a : CanonicalAxis) : Decidable (ValidAxis a) :=
  decidable_of_iff (a.minimum ≤ a.default ∧ a.default ≤ a.maximum ∧
    chainLtB (a.map.map (fun pr : Rat × Rat => pr.1)) = true ∧
    (a.map ≠ [] →
      (a.map.head?.map (fun pr : Rat × Rat => pr.1)) = some a.minimum ∧
      ((a.map.getLast?).map (fun pr : Rat × Rat => pr.1)) = some a.maximum ∧
      a.map ≠ identityMapOf a.minimum a.maximum))
    (by unfold ValidAxis; rw [chainLtB_iff])

lemma sorted_userLe_of_chain (l : List (Rat × Rat))
    (h : List.Chain' (fun p q => p < q) (l.map (fun p => p.1))) :
    List.Sorted userLe l := by
  have hp := List.chain'_iff_pairwise.mp h
  have hl := List.pairwise_map.mp hp
  exact hl.imp (fun hab => le_of_lt hab)

lemma sortByUser_identityMapOf (mn mx : Rat) (h : mn ≤ mx) :
    sortByUser (identityMapOf mn mx) = identityMapOf mn mx := by
  unfold identityMapOf
  by_cases he : mn = mx
  · simp [he, sortByUser, List.insertionSort, List.orderedInsert]
  · have hs : List.Sorted userLe [(mn, mn), (mx, mx)] := by
      refine List.sorted_cons.mpr ⟨?_, List.sorted_singleton _⟩
      intro b hb
      simp only [List.mem_singleton] at hb
      subst hb
      exact h
    simp only [if_neg he]
    exact hs.insertionSort_eq

lemma identityMapOf_head (mn mx : Rat) :
    (identityMapOf mn mx).head?.map (fun p => p.1) = some mn := by
  unfold identityMapOf
  split <;> rfl

lemma identityMapOf_getLast (mn mx : Rat) :
    ((identityMapOf mn mx).getLast?).map (fun p => p.1) = some mx := by
  unfold identityMapOf
  split
  · next he =>
      rw [he]
      rfl
  · rfl

lemma resolveAxisBack_projectAxis (a : CanonicalAxis) (h : ValidAxis a) :
    resolveAxisBack (projectAxis a) = a := by
  obtain ⟨h1, h2, h3, h4⟩ := h
  have hmnmx : a.minimum ≤ a.maximum := le_trans h1 h2
  obtain ⟨tg, nme, mnv, dfv, mxv, mp⟩ := a
  cases mp with
  | nil =>
      simp [resolveAxisBack, projectAxis, sortByUser_identityMapOf mnv mxv hmnmx,
        identityMapOf_head, identityMapOf_getLast]
  | cons p ps =>
      have hsort : sortByUser (p :: ps) = p :: ps :=
        (sorted_userLe_of_chain _ h3).insertionSort_eq
      obtain ⟨hh, hl, hne⟩ := h4 (by simp)
      have hh2 : p.1 = mnv := by simpa using hh
      simp [resolveAxisBack, projectAxis, hsort, hh, hl, hne]
      refine ⟨hh2, ?_⟩
      rw [hh2]
      exact hne

/-- C3: projecting resolved canonical axes to designspace axis descriptors
and resolving the projection back yields axes identical in tag, name,
minimum, default, maximum and mapping, in the same order. -/
theorem axes_roundtrip (axes : List CanonicalAxis)
    (h : ∀ a ∈ axes, ValidAxis a) :
    resolveAxesBack (projectAxes axes) = axes := by
  unfold resolveAxesBack projectAxes
  rw [List.map_map]
  induction axes with
  | nil => rfl
  | cons a rest ih =>
      simp only [List.map_cons]
      rw [show (resolveAxisBack ∘ projectAxis) a = a from
            resolveAxisBack_projectAxis a (h a (List.mem_cons_self _ _)),
          ih (fun b hb => h b (List.mem_cons_of_mem _ hb))]

/-- Witness for C3 on a two-axis list: one axis with a genuine mapping, one
with none. -/
theorem axes_roundtrip_witness :
    resolveAxesBack (projectAxes
      [⟨"wght", "Weight", 100, 400, 900, [(100, 0), (400, 350), (900, 1000)]⟩,
       ⟨"wdth", "Width", 75, 80, 100, []⟩]) =
      [⟨"wght", "Weight", 100, 400, 900, [(100, 0), (400, 350), (900, 1000)]⟩,
       ⟨"wdth", "Width", 75, 80, 100, []⟩] :=
  axes_roundtrip
    [⟨"wght", "Weight", 100, 400, 900, [(100, 0), (400, 350), (900, 1000)]⟩,
     ⟨"wdth", "Width", 75, 80, 100, []⟩]
    (by decide)

end GlyphsLib
